import Mathlib

/-!
# Shallow embedding of the highscore-tracker core

This file embeds the data model and the operations of the highscore-tracker
web application (the MobX `GameStore`, the browser `StorageService`, and the
form-level validation functions) as executable Lean definitions, and proves
the testable properties stated in the specification against them.

Modelling conventions:
* JavaScript `Date` values are modelled as `JSDate := Option Nat`
  (milliseconds since the epoch; `none` stands for an Invalid Date).
  A field that may be absent from a JS object (`undefined`) is wrapped in a
  further `Option`, so `none` at the outer level means "field absent".
* JavaScript numbers used as score values are modelled as `ℚ`; every
  comparison the code performs on them is order-theoretic, and on non-NaN
  numbers JS ordering agrees with the ordering of the reals, of which `ℚ`
  is a faithfully ordered subfield (the sample data uses values such as
  `95.5`).
* `Array.prototype.sort` is required by the ECMAScript standard to be
  stable; a stable sort's output is uniquely determined by the comparator
  and the input order, so it is modelled by `List.insertionSort` (which is
  stable) with the relation `le a b ↔ compare a b ≤ 0`.
* `async` methods are modelled as pure functions; the success/failure of the
  storage call an operation performs is passed in as an explicit argument
  (`saveOk`), and fresh UUIDs and `new Date()` results are passed in as
  arguments (`newId`, `now`).
* The `localStorage`-backed object holding the stored games is modelled as
  an insertion-ordered association list, which is how JS objects with
  string keys enumerate; `games[game.id] = gameFile` replaces the entry in
  place when the key exists and appends it otherwise.
-/

/-- A JavaScript `Date`: `some ms` for a valid date, `none` for Invalid Date. -/
abbrev JSDate := Option Nat

/-- `Score` record, from `types/index.js` as used by `GameStore`. -/
structure Score where
  id : String
  playerId : String
  playerName : String
  value : ℚ
  isTime : Bool
  achievedAt : JSDate
  notes : Option String
deriving Repr, DecidableEq

/-- `Game` record. `createdAt`/`updatedAt` are `Option JSDate`: the outer
`Option` records whether the JS object has the field at all (the store's
`createGame` builds games without these fields). -/
structure Game where
  id : String
  name : String
  description : String
  isTimeBased : Bool
  scores : List Score
  createdAt : Option JSDate
  updatedAt : Option JSDate
deriving Repr, DecidableEq

/-- `Player` record. -/
structure Player where
  id : String
  name : String
  createdAt : JSDate
deriving Repr, DecidableEq

/-- Observable state of the MobX `GameStore` (the `storageService` reference
is factored out; storage is threaded separately in the system model below). -/
structure StoreState where
  games : List Game
  players : List Player
  currentGame : Option Game
  isLoading : Bool
  error : Option String
deriving Repr, DecidableEq

/-- `SortOrder` enum from `types/index.js`. -/
inductive SortOrder where
  | BEST_FIRST
  | WORST_FIRST
  | NEWEST_FIRST
  | OLDEST_FIRST
deriving Repr, DecidableEq

/-- `ScoreFilter` from `types/index.js`: all fields optional. -/
structure ScoreFilter where
  playerId : Option String := none
  dateFrom : Option JSDate := none
  dateTo : Option JSDate := none
  limit : Option Nat := none
deriving Repr, DecidableEq

/-- JS `a >= b` on two `Date`s: numeric comparison, false when either is NaN
(Invalid Date). -/
def jsDateGE (a b : JSDate) : Bool :=
  match a, b with
  | some x, some y => y ≤ x
  | _, _ => false

/-- JS `a <= b` on two `Date`s: numeric comparison, false when either is NaN. -/
def jsDateLE (a b : JSDate) : Bool :=
  match a, b with
  | some x, some y => x ≤ y
  | _, _ => false

/-- Result type of every storage operation (`ApiResponse` in the source:
`{success: true, data}` or `{success: false, error}`). -/
inductive ApiResponse (α : Type) where
  | success (data : α)
  | failure (error : String)
deriving Repr, DecidableEq

/-- The persisted per-game document: `{ game, version: "1.0" }`. -/
structure GameFile where
  game : Game
  version : String
deriving Repr, DecidableEq

/-- The object stored under the `highscore-tracker-games` localStorage key,
modelled as an insertion-ordered association list from game ID to
`GameFile`. -/
abbrev LocalStorage := List (String × GameFile)

namespace StorageService

/-- `new Date(x)` where `x` is a possibly-absent, possibly-invalid date:
`new Date(undefined)` and `new Date(Invalid Date)` are both Invalid. -/
def newDateOfField : Option JSDate → JSDate
  | some (some t) => some t
  | some none => none
  | none => none

/-- `new Date(d)` on a date that is definitely present: a valid date is
copied, an Invalid Date stays Invalid. -/
def newDateOfDate : JSDate → JSDate
  | some t => some t
  | none => none

/-- `StorageService.deserializeGame`: rebuild the game with
`createdAt`/`updatedAt`/each score's `achievedAt` passed through `new Date`. -/
def deserializeGame (g : Game) : Game :=
  { g with
    createdAt := some (newDateOfField g.createdAt),
    updatedAt := some (newDateOfField g.updatedAt),
    scores := g.scores.map (fun s => { s with achievedAt := newDateOfDate s.achievedAt }) }

/-- JS object assignment `games[key] = gf`: replace in place if the key
exists, otherwise append (string keys enumerate in insertion order). -/
def upsert (storage : LocalStorage) (key : String) (gf : GameFile) : LocalStorage :=
  match storage with
  | [] => [(key, gf)]
  | kv :: rest => if kv.1 == key then (key, gf) :: rest else kv :: upsert rest key gf

/-- `StorageService.saveGame(game)`: wrap the game in a `GameFile` with
version `"1.0"` and store it under its ID. In the localStorage model the
write itself cannot fail (the `catch` branch is unreachable), so the
response is always a success. -/
def saveGame (storage : LocalStorage) (g : Game) : LocalStorage × ApiResponse Bool :=
  let gameFile : GameFile := { game := g, version := "1.0" }
  (upsert storage g.id gameFile, ApiResponse.success true)

/-- `StorageService.loadGame(gameId)`: look the document up and deserialize
it, or report "Game not found". -/
def loadGame (storage : LocalStorage) (gameId : String) : ApiResponse Game :=
  match storage.find? (fun kv => kv.1 == gameId) with
  | none => ApiResponse.failure "Game not found"
  | some kv => ApiResponse.success (deserializeGame kv.2.game)

/-- Game summary returned by `listGames`: `{id, name, updatedAt}`. -/
structure GameSummary where
  id : String
  name : String
  updatedAt : JSDate
deriving Repr, DecidableEq

/-- `listGames` sort comparator: most recently updated first
(`b.updatedAt.getTime() - a.updatedAt.getTime() ≤ 0` keeps `a` before `b`).
A NaN comparison (Invalid Date) leaves the order implementation-defined; it
is modelled as "no reordering". -/
def summaryLE (a b : GameSummary) : Prop :=
  match a.updatedAt, b.updatedAt with
  | some x, some y => y ≤ x
  | _, _ => True

instance : DecidableRel summaryLE := fun s t => by
  unfold summaryLE
  rcases s.updatedAt with _ | x <;> rcases t.updatedAt with _ | y <;>
    simp <;> infer_instance

/-- `StorageService.listGames()`: one summary per stored game, sorted by
`updatedAt` descending. -/
def listGames (storage : LocalStorage) : ApiResponse (List GameSummary) :=
  let gameList := storage.map (fun kv =>
    { id := kv.1, name := kv.2.game.name,
      updatedAt := newDateOfField kv.2.game.updatedAt : GameSummary })
  ApiResponse.success (List.insertionSort summaryLE gameList)

/-- `StorageService.deleteGame(gameId)`: remove the document, or report
"Game not found" when absent. -/
def deleteGame (storage : LocalStorage) (gameId : String) : LocalStorage × ApiResponse Bool :=
  if storage.any (fun kv => kv.1 == gameId) then
    (storage.filter (fun kv => kv.1 != gameId), ApiResponse.success true)
  else
    (storage, ApiResponse.failure "Game not found")

end StorageService

namespace GameStore

/-- One step of the `reduce` in `getBestScore`: for time-based games keep the
strictly smaller value, otherwise keep the strictly larger one; on a tie the
accumulator (the earlier score) is kept. -/
def bestReduceStep (isTimeBased : Bool) (best current : Score) : Score :=
  match isTimeBased with
  | true => if current.value < best.value then current else best
  | false => if current.value > best.value then current else best

/-- `GameStore.getBestScore(gameId, playerId)`: find the game, filter its
scores to the player, and `reduce` with `bestReduceStep` (JS `reduce`
without an initial value starts from the first element). -/
def getBestScore (st : StoreState) (gameId playerId : String) : Option Score :=
  match st.games.find? (fun g => g.id == gameId) with
  | none => none
  | some game =>
    let playerScores := game.scores.filter (fun s => s.playerId == playerId)
    match playerScores with
    | [] => none
    | b :: rest => some (rest.foldl (bestReduceStep game.isTimeBased) b)

/-- Direction of comparison: in a time-based game lower values are better.
This is the BEST_FIRST comparator as a relation:
`(isTimeBased ? a.value - b.value : b.value - a.value) ≤ 0`. -/
def dirLE (isTimeBased : Bool) (s t : Score) : Prop :=
  match isTimeBased with
  | true => s.value ≤ t.value
  | false => t.value ≤ s.value

instance (b : Bool) : DecidableRel (dirLE b) := fun s t => by
  unfold dirLE; cases b <;> infer_instance

/-- Strict version of `dirLE`: strictly better in the game's direction. -/
def dirLT (isTimeBased : Bool) (s t : Score) : Prop :=
  match isTimeBased with
  | true => s.value < t.value
  | false => t.value < s.value

/-- The WORST_FIRST comparator keeps `a` before `b` iff
`(isTimeBased ? b.value - a.value : a.value - b.value) ≤ 0`,
i.e. the opposite direction of `dirLE`. -/
def worstLE (isTimeBased : Bool) (a b : Score) : Prop :=
  dirLE isTimeBased b a

instance (b : Bool) : DecidableRel (worstLE b) := fun s t => by
  unfold worstLE; infer_instance

/-- NEWEST_FIRST comparator: `b.achievedAt.getTime() - a.achievedAt.getTime() ≤ 0`
keeps `a` before `b`. A comparison involving an Invalid Date yields NaN, for
which the ECMAScript sort order is implementation-defined; it is modelled as
"no reordering" (the comparator accepts the original order). -/
def newestLE (a b : Score) : Prop :=
  match a.achievedAt, b.achievedAt with
  | some x, some y => y ≤ x
  | _, _ => True

instance : DecidableRel newestLE := fun s t => by
  unfold newestLE
  rcases s.achievedAt with _ | x <;> rcases t.achievedAt with _ | y <;>
    simp <;> infer_instance

/-- OLDEST_FIRST comparator, the reverse time direction of `newestLE`. -/
def oldestLE (a b : Score) : Prop :=
  match a.achievedAt, b.achievedAt with
  | some x, some y => x ≤ y
  | _, _ => True

instance : DecidableRel oldestLE := fun s t => by
  unfold oldestLE
  rcases s.achievedAt with _ | x <;> rcases t.achievedAt with _ | y <;>
    simp <;> infer_instance

/-- `GameStore.getScores(gameId, sortOrder, filter)`: copy the game's scores,
apply the optional player/date filters, stably sort with the comparator of
the requested order, and finally apply the optional result-count cap
(`filter?.limit` is a JS truthiness test, so a limit of `0` applies no cap;
likewise an empty-string `playerId` filter is falsy and filters nothing). -/
def getScores (st : StoreState) (gameId : String) (sortOrder : SortOrder)
    (filter : Option ScoreFilter) : List Score :=
  match st.games.find? (fun g => g.id == gameId) with
  | none => []
  | some game =>
    let scores := game.scores
    let scores := match filter with
      | none => scores
      | some f =>
        let scores := match f.playerId with
          | some pid => if pid = "" then scores
                        else scores.filter (fun s => s.playerId == pid)
          | none => scores
        let scores := match f.dateFrom with
          | some d => scores.filter (fun s => jsDateGE s.achievedAt d)
          | none => scores
        let scores := match f.dateTo with
          | some d => scores.filter (fun s => jsDateLE s.achievedAt d)
          | none => scores
        scores
    let sorted := match sortOrder with
      | SortOrder.BEST_FIRST => List.insertionSort (dirLE game.isTimeBased) scores
      | SortOrder.WORST_FIRST => List.insertionSort (worstLE game.isTimeBased) scores
      | SortOrder.NEWEST_FIRST => List.insertionSort newestLE scores
      | SortOrder.OLDEST_FIRST => List.insertionSort oldestLE scores
    match filter with
    | some f =>
      (match f.limit with
       | some n => if n = 0 then sorted else sorted.take n
       | none => sorted)
    | none => sorted

/-- One leaderboard entry: `{player, bestScore}`. -/
structure LeaderboardEntry where
  player : Player
  bestScore : Score
deriving Repr, DecidableEq

/-- Leaderboard sort comparator: by best-score value, ascending for
time-based games and descending otherwise. -/
def lbLE (isTimeBased : Bool) (a b : LeaderboardEntry) : Prop :=
  match isTimeBased with
  | true => a.bestScore.value ≤ b.bestScore.value
  | false => b.bestScore.value ≤ a.bestScore.value

instance (b : Bool) : DecidableRel (lbLE b) := fun s t => by
  unfold lbLE; cases b <;> infer_instance

/-- `GameStore.getLeaderboard(gameId, limit = 10)`: one entry per player whose
`getBestScore` is non-null (the `forEach`/`push` loop is a `filterMap`),
stably sorted by best-score value in the game's direction, then
`slice(0, limit)`. -/
def getLeaderboard (st : StoreState) (gameId : String) (limit : Nat := 10) :
    List LeaderboardEntry :=
  match st.games.find? (fun g => g.id == gameId) with
  | none => []
  | some game =>
    let leaderboard := st.players.filterMap (fun p =>
      (getBestScore st gameId p.id).map (fun s => { player := p, bestScore := s }))
    (List.insertionSort (lbLE game.isTimeBased) leaderboard).take limit

/-- The game object `createGame` builds: fresh ID, empty score list, and no
`createdAt`/`updatedAt` fields (the source object literal does not set them). -/
def newGameOf (name description : String) (isTimeBased : Bool) (newId : String) : Game :=
  { id := newId, name := name, description := description,
    isTimeBased := isTimeBased, scores := [],
    createdAt := none, updatedAt := none }

/-- `GameStore.createGame(name, description, isTimeBased)`: build the new
game, persist it, and push it onto the in-memory list only when the save
succeeded; returns the new ID on success and `null` on failure. The storage
error message is abstracted to the code's fallback string. -/
def createGame (st : StoreState) (name description : String) (isTimeBased : Bool)
    (newId : String) (saveOk : Bool) : Option String × StoreState :=
  let newGame := newGameOf name description isTimeBased newId
  if saveOk then
    (some newId,
      { st with games := st.games ++ [newGame], error := none, isLoading := false })
  else
    (none, { st with error := some "Failed to save game", isLoading := false })

/-- The score object `addScore` builds: `isTime` copied from the game,
`achievedAt = new Date()`. -/
def mkNewScore (newId playerId playerName : String) (value : ℚ) (isTime : Bool)
    (now : Nat) (notes : Option String) : Score :=
  { id := newId, playerId := playerId, playerName := playerName, value := value,
    isTime := isTime, achievedAt := some now, notes := notes }

/-- `GameStore.addScore(gameId, playerId, playerName, value, notes)`: look the
game up (failure if absent), build the new score, build a copy of the game
with the score appended, persist it, and only on success replace the game at
its index in the in-memory list. -/
def addScore (st : StoreState) (gameId playerId playerName : String) (value : ℚ)
    (notes : Option String) (newId : String) (now : Nat) (saveOk : Bool) :
    Bool × StoreState :=
  match st.games.find? (fun g => g.id == gameId) with
  | none => (false, { st with error := some "Game not found", isLoading := false })
  | some game =>
    let newScore := mkNewScore newId playerId playerName value game.isTimeBased now notes
    let updatedGame := { game with scores := game.scores ++ [newScore] }
    if saveOk then
      let games :=
        match st.games.findIdx? (fun g => g.id == gameId) with
        | some i => st.games.set i updatedGame
        | none => st.games
      (true, { st with games := games, error := none, isLoading := false })
    else
      (false, { st with error := some "Failed to save score", isLoading := false })

/-- `GameStore.deleteGame(gameId)`: persist the deletion first; only on
success filter the game out of memory and clear `currentGame` if it pointed
at the deleted game. -/
def deleteGame (st : StoreState) (gameId : String) (deleteOk : Bool) :
    Bool × StoreState :=
  if deleteOk then
    (true,
      { st with
        games := st.games.filter (fun g => g.id != gameId),
        currentGame :=
          match st.currentGame with
          | some cg => if cg.id == gameId then none else some cg
          | none => none,
        error := none, isLoading := false })
  else
    (false, { st with error := some "Failed to delete game", isLoading := false })

/-- `GameStore.loadGames()`: fetch the summary list, then load each game's
full document, skipping per-game failures; replace the in-memory games on
success, surface the error if the list fetch itself failed. -/
def loadGames (st : StoreState) (storage : LocalStorage) : StoreState :=
  match StorageService.listGames storage with
  | ApiResponse.failure e => { st with error := some e, isLoading := false }
  | ApiResponse.success summaries =>
    let loadedGames := summaries.filterMap (fun s =>
      match StorageService.loadGame storage s.id with
      | ApiResponse.success g => some g
      | ApiResponse.failure _ => none)
    { st with games := loadedGames, error := none, isLoading := false }

/-- `GameStore.initializeSampleData()` run by the constructor: two sample
players and one sample time-based game with two scores. The `uuidv4()` and
`new Date()` results are parameters. -/
def initialStore (p1Id p2Id gameId s1Id s2Id : String) (now : Nat) : StoreState :=
  let player1 : Player := { id := p1Id, name := "Alice", createdAt := some now }
  let player2 : Player := { id := p2Id, name := "Bob", createdAt := some now }
  let sampleGame : Game :=
    { id := gameId, name := "Racing Game", description := "Best lap times",
      isTimeBased := true,
      scores :=
        [ { id := s1Id, playerId := p1Id, playerName := player1.name,
            value := 95.5, isTime := true, achievedAt := some now,
            notes := some "Perfect run!" },
          { id := s2Id, playerId := p2Id, playerName := player2.name,
            value := 98.2, isTime := true, achievedAt := some now,
            notes := some "Good attempt" } ],
      createdAt := none, updatedAt := none }
  { games := [sampleGame], players := [player1, player2],
    currentGame := none, isLoading := false, error := none }

end GameStore

/-- Combined system state: the in-memory store plus the storage backend. -/
structure Sys where
  store : StoreState
  storage : LocalStorage

/-- System-level `createGame`: on success both the storage write and the
in-memory append happen; on failure neither does. -/
def sysCreateGame (s : Sys) (name description : String) (isTimeBased : Bool)
    (newId : String) (saveOk : Bool) : Sys :=
  { store := (GameStore.createGame s.store name description isTimeBased newId saveOk).2,
    storage :=
      if saveOk then
        (StorageService.saveGame s.storage
          (GameStore.newGameOf name description isTimeBased newId)).1
      else s.storage }

/-- System-level `addScore`: on success the appended-score copy of the game is
both persisted and swapped into memory; on failure neither happens. -/
def sysAddScore (s : Sys) (gameId playerId playerName : String) (value : ℚ)
    (notes : Option String) (newId : String) (now : Nat) (saveOk : Bool) : Sys :=
  match s.store.games.find? (fun g => g.id == gameId) with
  | none =>
    { s with store := (GameStore.addScore s.store gameId playerId playerName value
        notes newId now saveOk).2 }
  | some game =>
    let newScore := GameStore.mkNewScore newId playerId playerName value
      game.isTimeBased now notes
    let updatedGame := { game with scores := game.scores ++ [newScore] }
    { store := (GameStore.addScore s.store gameId playerId playerName value
        notes newId now saveOk).2,
      storage :=
        if saveOk then (StorageService.saveGame s.storage updatedGame).1
        else s.storage }

/-- System-level `deleteGame`: the storage deletion is attempted first and
its outcome drives the in-memory update. -/
def sysDeleteGame (s : Sys) (gameId : String) : Sys :=
  match StorageService.deleteGame s.storage gameId with
  | (storage2, ApiResponse.success _) =>
    { store := (GameStore.deleteGame s.store gameId true).2, storage := storage2 }
  | (storage2, ApiResponse.failure _) =>
    { store := (GameStore.deleteGame s.store gameId false).2, storage := storage2 }

/-- System-level `loadGames`: reload the in-memory games from storage. -/
def sysLoadGames (s : Sys) : Sys :=
  { s with store := GameStore.loadGames s.store s.storage }

/-- System states reachable from a fresh application start (constructor with
sample data, empty storage) by the store's operations. Persistence failures
are represented by `saveOk = false` transitions. -/
inductive Reach : Sys → Prop where
  | init (p1Id p2Id gameId s1Id s2Id : String) (now : Nat) :
      Reach ⟨GameStore.initialStore p1Id p2Id gameId s1Id s2Id now, []⟩
  | createGame {s : Sys} (h : Reach s) (name description : String)
      (isTimeBased : Bool) (newId : String) (saveOk : Bool) :
      Reach (sysCreateGame s name description isTimeBased newId saveOk)
  | addScore {s : Sys} (h : Reach s) (gameId playerId playerName : String)
      (value : ℚ) (notes : Option String) (newId : String) (now : Nat)
      (saveOk : Bool) :
      Reach (sysAddScore s gameId playerId playerName value notes newId now saveOk)
  | deleteGame {s : Sys} (h : Reach s) (gameId : String) :
      Reach (sysDeleteGame s gameId)
  | loadGames {s : Sys} (h : Reach s) :
      Reach (sysLoadGames s)

/-- The C10 invariant on a list of games: every score's `isTime` equals its
parent game's `isTimeBased`. -/
def gamesConsistent (games : List Game) : Prop :=
  ∀ g ∈ games, ∀ sc ∈ g.scores, sc.isTime = g.isTimeBased

instance (games : List Game) : Decidable (gamesConsistent games) := by
  unfold gamesConsistent; infer_instance

/-- The strengthened invariant: the store's games and every stored document
are consistent. -/
def Sys.Consistent (s : Sys) : Prop :=
  gamesConsistent (s.store.games) ∧ gamesConsistent (s.storage.map (fun kv => kv.2.game))

/-- JS `String.prototype.toLowerCase()`, implemented over the character list
(agreeing with it on ASCII, the alphabet of every name in this development). -/
def jsToLower (s : String) : String := ⟨s.data.map Char.toLower⟩

/-- JS `String.prototype.trim()`: strip whitespace from both ends,
implemented over the character list so that it is kernel-computable. -/
def jsTrim (s : String) : String :=
  ⟨List.reverse (List.dropWhile Char.isWhitespace
    (List.reverse (List.dropWhile Char.isWhitespace s.data)))⟩

namespace AddGameForm

/-- The `name` checks of `AddGameForm.validateForm`: required/length checks,
then the case-insensitive duplicate check, whose assignment to
`newErrors.name` overwrites the earlier ones. -/
def nameError (games : List Game) (name : String) : Option String :=
  let base :=
    if jsTrim name = "" then some "Game name is required"
    else if (jsTrim name).length < 2 then some "Game name must be at least 2 characters long"
    else if (jsTrim name).length > 50 then some "Game name must be less than 50 characters"
    else none
  if games.any (fun g => jsToLower g.name == jsToLower (jsTrim name)) then
    some "A game with this name already exists"
  else base

end AddGameForm

namespace AddScoreForm

/-- The `scoreValue` checks of `AddScoreForm.validateForm`. `trimmedEmpty`
is the truthiness test `!formData.scoreValue.trim()`; `parsed` is the
`parseFloat` result, `none` standing for NaN. -/
def scoreValueError (trimmedEmpty : Bool) (parsed : Option ℚ) : Option String :=
  if trimmedEmpty then some "Score value is required"
  else
    match parsed with
    | none => some "Score must be a valid number"
    | some n =>
      if n < 0 then some "Score cannot be negative"
      else if n > 999999999 then some "Score is too large"
      else none

end AddScoreForm

/-! ## Concrete example data used by witnesses and counterexamples -/

/-- A time-based game where Alice has three scores, two tied at the optimum. -/
def exScoreA1 : Score :=
  { id := "s1", playerId := "p1", playerName := "Alice", value := 50,
    isTime := true, achievedAt := some 10, notes := none }

def exScoreA2 : Score :=
  { id := "s2", playerId := "p1", playerName := "Alice", value := 42,
    isTime := true, achievedAt := some 20, notes := none }

def exScoreA3 : Score :=
  { id := "s3", playerId := "p1", playerName := "Alice", value := 42,
    isTime := true, achievedAt := some 30, notes := none }

def exScoreB1 : Score :=
  { id := "s4", playerId := "p2", playerName := "Bob", value := 60,
    isTime := true, achievedAt := some 40, notes := none }

def exGame : Game :=
  { id := "g1", name := "Racing", description := "laps", isTimeBased := true,
    scores := [exScoreA1, exScoreA2, exScoreA3, exScoreB1],
    createdAt := some (some 1), updatedAt := some (some 2) }

def exPlayer1 : Player := { id := "p1", name := "Alice", createdAt := some 1 }

def exPlayer2 : Player := { id := "p2", name := "Bob", createdAt := some 1 }

/-- A player with no scores in `exGame`. -/
def exPlayer3 : Player := { id := "p3", name := "Carol", createdAt := some 1 }

def exStore : StoreState :=
  { games := [exGame], players := [exPlayer1, exPlayer2, exPlayer3],
    currentGame := none, isLoading := false, error := none }

/-- A game with pairwise-distinct score values, for the C3 witness. -/
def exGameDistinct : Game :=
  { id := "g2", name := "Pinball", description := "", isTimeBased := false,
    scores := [exScoreA1, exScoreA2, exScoreB1],
    createdAt := some (some 1), updatedAt := some (some 2) }

def exStoreDistinct : StoreState :=
  { games := [exGameDistinct], players := [exPlayer1, exPlayer2],
    currentGame := none, isLoading := false, error := none }

/-! ## Helper lemmas -/

namespace GameStore

@[simp] theorem dirLE_true (s t : Score) : dirLE true s t ↔ s.value ≤ t.value := Iff.rfl

@[simp] theorem dirLE_false (s t : Score) : dirLE false s t ↔ t.value ≤ s.value := Iff.rfl

theorem dirLE_refl (time : Bool) (s : Score) : dirLE time s s := by
  cases time <;> simp

theorem dirLE_trans (time : Bool) {a b c : Score}
    (h1 : dirLE time a b) (h2 : dirLE time b c) : dirLE time a c := by
  cases time <;> simp at * <;> linarith

instance (time : Bool) : IsTotal Score (dirLE time) :=
  ⟨fun a b => by cases time <;> simp <;> exact le_total _ _⟩

instance (time : Bool) : IsTrans Score (dirLE time) :=
  ⟨fun _ _ _ => dirLE_trans time⟩

instance (time : Bool) : IsTotal Score (worstLE time) :=
  ⟨fun a b => by unfold worstLE; cases time <;> simp <;> exact le_total _ _⟩

instance (time : Bool) : IsTrans Score (worstLE time) :=
  ⟨fun _ _ _ h1 h2 => dirLE_trans time h2 h1⟩

instance (time : Bool) : IsAntisymm Score (dirLT time) :=
  ⟨by intro a b h1 h2; exfalso; cases time <;> simp [dirLT] at h1 h2 <;> linarith⟩

theorem dirLT_of_dirLE_ne (time : Bool) {a b : Score}
    (h1 : dirLE time a b) (h2 : a.value ≠ b.value) : dirLT time a b := by
  cases time
  · exact lt_of_le_of_ne h1 (Ne.symm h2)
  · exact lt_of_le_of_ne h1 h2

theorem bestReduceStep_cases (time : Bool) (b c : Score) :
    bestReduceStep time b c = b ∨ bestReduceStep time b c = c := by
  cases time <;> dsimp only [bestReduceStep] <;> split <;> simp

theorem bestReduceStep_le_left (time : Bool) (b c : Score) :
    dirLE time (bestReduceStep time b c) b := by
  cases time <;> dsimp only [bestReduceStep] <;> split <;> simp <;> linarith

theorem bestReduceStep_le_right (time : Bool) (b c : Score) :
    dirLE time (bestReduceStep time b c) c := by
  cases time <;> dsimp only [bestReduceStep] <;> split <;> simp <;> linarith

theorem bestReduceStep_eq_left (time : Bool) {b c : Score} (h : dirLE time b c) :
    bestReduceStep time b c = b := by
  cases time <;> exact if_neg (not_lt.mpr h)

theorem bestReduceStep_eq_right (time : Bool) {b c : Score} (h : ¬ dirLE time b c) :
    bestReduceStep time b c = c := by
  cases time <;> exact if_pos (not_le.mp h)

theorem foldl_best_mem (time : Bool) (b : Score) (l : List Score) :
    l.foldl (bestReduceStep time) b ∈ b :: l := by
  induction l generalizing b with
  | nil => simp
  | cons c l ih =>
    simp only [List.foldl_cons]
    rcases List.mem_cons.mp (ih (bestReduceStep time b c)) with h2 | h2
    · rcases bestReduceStep_cases time b c with h3 | h3 <;> rw [h2, h3] <;> simp
    · exact List.mem_cons_of_mem _ (List.mem_cons_of_mem _ h2)

theorem foldl_best_le (time : Bool) (b : Score) (l : List Score) :
    ∀ t ∈ b :: l, dirLE time (l.foldl (bestReduceStep time) b) t := by
  induction l generalizing b with
  | nil =>
    intro t ht
    simp only [List.mem_singleton] at ht
    subst ht
    exact dirLE_refl time t
  | cons c l ih =>
    intro t ht
    simp only [List.foldl_cons]
    have hr := ih (bestReduceStep time b c)
    have hr_head : dirLE time (l.foldl (bestReduceStep time) (bestReduceStep time b c))
        (bestReduceStep time b c) := hr _ (List.mem_cons_self _ _)
    rcases List.mem_cons.mp ht with h | h
    · subst h
      exact dirLE_trans time hr_head (bestReduceStep_le_left time t c)
    · rcases List.mem_cons.mp h with h2 | h2
      · subst h2
        exact dirLE_trans time hr_head (bestReduceStep_le_right time b t)
      · exact hr _ (List.mem_cons_of_mem _ h2)

theorem foldl_best_first (time : Bool) (b : Score) (l : List Score) :
    (b :: l).find? (fun t => t.value == (l.foldl (bestReduceStep time) b).value)
      = some (l.foldl (bestReduceStep time) b) := by
  induction l generalizing b with
  | nil => simp
  | cons c l ih =>
    simp only [List.foldl_cons]
    have hIH := ih (bestReduceStep time b c)
    set r := l.foldl (bestReduceStep time) (bestReduceStep time b c) with hr
    have hr_head : dirLE time r (bestReduceStep time b c) :=
      foldl_best_le time (bestReduceStep time b c) l _ (List.mem_cons_self _ _)
    by_cases hbc : dirLE time b c
    · -- b survives the comparison with c
      rw [bestReduceStep_eq_left time hbc] at hIH hr_head
      by_cases hb : b.value = r.value
      · -- the head matches; the IH then forces r = b
        have hpb : (b.value == r.value) = true := beq_iff_eq.mpr hb
        rw [List.find?_cons, hpb] at hIH
        have hrb : r = b := by
          have : some b = some r := hIH
          injection this with h
          exact h.symm
        rw [List.find?_cons, hpb, hrb]
      · -- b does not match; neither can c, since r is strictly better than b
        have hpb : (b.value == r.value) = false := by
          simp [hb]
        rw [List.find?_cons, hpb] at hIH
        have hne_c : (c.value == r.value) = false := by
          simp only [beq_eq_false_iff_ne, ne_eq]
          intro hc
          apply hb
          cases time <;> simp at hr_head hbc <;> linarith
        rw [List.find?_cons, hpb, List.find?_cons, hne_c]
        exact hIH
    · -- c replaces b, and r is strictly better than b, so the head b never matches
      rw [bestReduceStep_eq_right time hbc] at hIH hr_head
      have hne_b : (b.value == r.value) = false := by
        simp only [beq_eq_false_iff_ne, ne_eq]
        intro hbv
        cases time <;> simp at hr_head hbc <;> linarith
      rw [List.find?_cons, hne_b]
      exact hIH

theorem getBestScore_eq (st : StoreState) (gameId playerId : String) (game : Game)
    (hg : st.games.find? (fun g => g.id == gameId) = some game) :
    getBestScore st gameId playerId =
      match game.scores.filter (fun s => s.playerId == playerId) with
      | [] => none
      | b :: rest => some (rest.foldl (bestReduceStep game.isTimeBased) b) := by
  unfold getBestScore
  rw [hg]

/-- `getBestScore` returns `some` exactly when the player has a score in the game. -/
theorem getBestScore_isSome_iff (st : StoreState) (gameId playerId : String) (game : Game)
    (hg : st.games.find? (fun g => g.id == gameId) = some game) :
    (getBestScore st gameId playerId).isSome ↔
      ∃ sc ∈ game.scores, sc.playerId = playerId := by
  rw [getBestScore_eq st gameId playerId game hg]
  rcases hps : game.scores.filter (fun s => s.playerId == playerId) with _ | ⟨b, rest⟩ <;>
    rw [hps]
  · simp only [Option.isSome_none, Bool.false_eq_true, false_iff]
    rintro ⟨sc, hmem, hpid⟩
    have : sc ∈ game.scores.filter (fun s => s.playerId == playerId) :=
      List.mem_filter.mpr ⟨hmem, by simp [hpid]⟩
    rw [hps] at this
    exact absurd this (List.not_mem_nil sc)
  · simp only [Option.isSome_some, true_iff]
    have : b ∈ game.scores.filter (fun s => s.playerId == playerId) := by
      rw [hps]; exact List.mem_cons_self _ _
    have hb := List.mem_filter.mp this
    exact ⟨b, hb.1, by simpa using hb.2⟩

/-- Whenever `getBestScore` returns a score, that score is one of the player's
scores in the game. -/
theorem getBestScore_mem (st : StoreState) (gameId playerId : String) (game : Game) (s : Score)
    (hg : st.games.find? (fun g => g.id == gameId) = some game)
    (hs : getBestScore st gameId playerId = some s) :
    s ∈ game.scores ∧ s.playerId = playerId := by
  rw [getBestScore_eq st gameId playerId game hg] at hs
  rcases hps : game.scores.filter (fun x => x.playerId == playerId) with _ | ⟨b, rest⟩
  · rw [hps] at hs; exact absurd hs (by simp)
  · rw [hps] at hs
    have hmem : s ∈ b :: rest := by
      injection hs with h
      exact h ▸ foldl_best_mem game.isTimeBased b rest
    rw [← hps] at hmem
    have := List.mem_filter.mp hmem
    exact ⟨this.1, by simpa using this.2⟩

end GameStore

/-! ## Claims -/

/-- C2: for every game and player, `getBestScore(gameId, playerId)` returns the
score of that player with minimal value when the game is time-based and maximal
value otherwise, and on an exact tie of values the score appearing earlier in
the game's scores list (added first) is returned: the returned score is the
first one in the player's score list whose value equals the optimum. -/
theorem C2_getBestScore_optimal_first_tie (st : StoreState) (gameId playerId : String)
    (game : Game)
    (hg : st.games.find? (fun g => g.id == gameId) = some game)
    (hne : game.scores.filter (fun s => s.playerId == playerId) ≠ []) :
    ∃ s, GameStore.getBestScore st gameId playerId = some s ∧
      s ∈ game.scores ∧ s.playerId = playerId ∧
      (∀ t ∈ game.scores.filter (fun x => x.playerId == playerId),
        if game.isTimeBased then s.value ≤ t.value else t.value ≤ s.value) ∧
      (game.scores.filter (fun x => x.playerId == playerId)).find?
        (fun t => t.value == s.value) = some s := by
  rw [GameStore.getBestScore_eq st gameId playerId game hg]
  rcases hps : game.scores.filter (fun s => s.playerId == playerId) with _ | ⟨b, rest⟩
  · exact absurd hps hne
  · refine ⟨rest.foldl (GameStore.bestReduceStep game.isTimeBased) b, by rw [hps],
      ?_, ?_, ?_, ?_⟩
    · have hmem : rest.foldl (GameStore.bestReduceStep game.isTimeBased) b ∈ b :: rest :=
        GameStore.foldl_best_mem game.isTimeBased b rest
      rw [← hps] at hmem
      exact (List.mem_filter.mp hmem).1
    · have hmem : rest.foldl (GameStore.bestReduceStep game.isTimeBased) b ∈ b :: rest :=
        GameStore.foldl_best_mem game.isTimeBased b rest
      rw [← hps] at hmem
      simpa using (List.mem_filter.mp hmem).2
    · intro t ht
      rw [hps] at ht
      have := GameStore.foldl_best_le game.isTimeBased b rest t ht
      cases htime : game.isTimeBased <;> rw [htime] at this <;> simpa using this
    · rw [hps]
      exact GameStore.foldl_best_first game.isTimeBased b rest

/-- Witness for C2 at a concrete input (Alice's tied best times). -/
theorem C2_witness :
    exStore.games.find? (fun g => g.id == "g1") = some exGame ∧
    exGame.scores.filter (fun s => s.playerId == "p1") ≠ [] ∧
    ∃ s, GameStore.getBestScore exStore "g1" "p1" = some s ∧
      s ∈ exGame.scores ∧ s.playerId = "p1" ∧
      (∀ t ∈ exGame.scores.filter (fun x => x.playerId == "p1"),
        if exGame.isTimeBased then s.value ≤ t.value else t.value ≤ s.value) ∧
      (exGame.scores.filter (fun x => x.playerId == "p1")).find?
        (fun t => t.value == s.value) = some s :=
  ⟨by decide, by decide,
    C2_getBestScore_optimal_first_tie exStore "g1" "p1" exGame (by decide) (by decide)⟩

/-- C3 counterexample: in `exGame` two of Alice's scores tie at value 42; the
stable sort keeps them in insertion order under both directions, so
BEST_FIRST is not the reverse of WORST_FIRST. -/
theorem C3_counterexample :
    ¬ (GameStore.getScores exStore "g1" SortOrder.BEST_FIRST none
        = (GameStore.getScores exStore "g1" SortOrder.WORST_FIRST none).reverse) := by
  decide

/-- C3 (amended): for every game in the store whose score values are pairwise
distinct, `getScores(gameId, BEST_FIRST)` is the exact reverse of
`getScores(gameId, WORST_FIRST)`. (On equal values the ECMAScript-mandated
stable sort keeps the original insertion order in both directions, so the
reversal law fails there; see `C3_counterexample`.) -/
theorem C3_best_reverse_worst_of_distinct (st : StoreState) (gameId : String) (game : Game)
    (hg : st.games.find? (fun g => g.id == gameId) = some game)
    (hdist : game.scores.Pairwise (fun a b => a.value ≠ b.value)) :
    GameStore.getScores st gameId SortOrder.BEST_FIRST none
      = (GameStore.getScores st gameId SortOrder.WORST_FIRST none).reverse := by
  unfold GameStore.getScores
  rw [hg]
  simp only
  set time := game.isTimeBased with htime
  set l := game.scores with hl
  have hne_symm : Symmetric (fun a b : Score => a.value ≠ b.value) :=
    fun a b h => Ne.symm h
  -- the left-hand side, sorted in the best-first direction
  have perm1 : List.Perm (List.insertionSort (GameStore.dirLE time) l) l :=
    List.perm_insertionSort _ l
  have sorted1 : List.Sorted (GameStore.dirLE time)
      (List.insertionSort (GameStore.dirLE time) l) :=
    List.sorted_insertionSort _ l
  have dist1 : (List.insertionSort (GameStore.dirLE time) l).Pairwise
      (fun a b => a.value ≠ b.value) :=
    (perm1.pairwise_iff @hne_symm).mpr hdist
  have strict1 : List.Sorted (GameStore.dirLT time)
      (List.insertionSort (GameStore.dirLE time) l) :=
    (sorted1.and dist1).imp (fun hab => GameStore.dirLT_of_dirLE_ne time hab.1 hab.2)
  -- the right-hand side, the reverse of the worst-first sort
  have perm2 : List.Perm (List.insertionSort (GameStore.worstLE time) l).reverse l :=
    (List.insertionSort (GameStore.worstLE time) l).reverse_perm.trans
      (List.perm_insertionSort _ l)
  have sorted2w : List.Sorted (GameStore.worstLE time)
      (List.insertionSort (GameStore.worstLE time) l) :=
    List.sorted_insertionSort _ l
  have sorted2 : List.Sorted (GameStore.dirLE time)
      (List.insertionSort (GameStore.worstLE time) l).reverse := by
    rw [List.Sorted, List.pairwise_reverse]
    exact sorted2w.imp (fun h => h)
  have dist2 : (List.insertionSort (GameStore.worstLE time) l).reverse.Pairwise
      (fun a b => a.value ≠ b.value) :=
    (perm2.pairwise_iff @hne_symm).mpr hdist
  have strict2 : List.Sorted (GameStore.dirLT time)
      (List.insertionSort (GameStore.worstLE time) l).reverse :=
    (sorted2.and dist2).imp (fun hab => GameStore.dirLT_of_dirLE_ne time hab.1 hab.2)
  exact List.eq_of_perm_of_sorted (perm1.trans perm2.symm) strict1 strict2

/-- Witness for the amended C3 at a concrete input. -/
theorem C3_witness :
    exStoreDistinct.games.find? (fun g => g.id == "g2") = some exGameDistinct ∧
    exGameDistinct.scores.Pairwise (fun a b => a.value ≠ b.value) ∧
    GameStore.getScores exStoreDistinct "g2" SortOrder.BEST_FIRST none
      = (GameStore.getScores exStoreDistinct "g2" SortOrder.WORST_FIRST none).reverse :=
  ⟨by decide, by decide,
    C3_best_reverse_worst_of_distinct exStoreDistinct "g2" exGameDistinct
      (by decide) (by decide)⟩

namespace GameStore

instance (time : Bool) : IsTotal LeaderboardEntry (lbLE time) :=
  ⟨fun a b => by unfold lbLE; cases time <;> exact le_total _ _⟩

instance (time : Bool) : IsTrans LeaderboardEntry (lbLE time) :=
  ⟨fun a b c h1 h2 => by
    unfold lbLE at *
    cases time <;> dsimp only at * <;> linarith⟩

theorem lbLE_imp_ite (time : Bool) {a b : LeaderboardEntry} (h : lbLE time a b) :
    if time then a.bestScore.value ≤ b.bestScore.value
    else b.bestScore.value ≤ a.bestScore.value := by
  cases time <;> simpa using h

/-- Projecting the players out of the leaderboard `filterMap` yields exactly
the players whose `getBestScore` is non-null. -/
theorem leaderboard_map_player (st : StoreState) (gameId : String)
    (players : List Player) :
    (players.filterMap (fun p => (getBestScore st gameId p.id).map
        (fun s => { player := p, bestScore := s : LeaderboardEntry }))).map
      LeaderboardEntry.player
      = players.filter (fun p => (getBestScore st gameId p.id).isSome) := by
  induction players with
  | nil => rfl
  | cons p rest ih =>
    rcases h : getBestScore st gameId p.id with _ | s <;>
      simp [List.filterMap_cons, List.filter_cons, h, ih]

/-- Every leaderboard entry pairs a player with that player's best score. -/
theorem leaderboard_entry_best (st : StoreState) (gameId : String)
    (players : List Player) (e : LeaderboardEntry)
    (he : e ∈ players.filterMap (fun p => (getBestScore st gameId p.id).map
        (fun s => { player := p, bestScore := s : LeaderboardEntry }))) :
    getBestScore st gameId e.player.id = some e.bestScore := by
  rcases List.mem_filterMap.mp he with ⟨p, _, hp⟩
  rcases Option.map_eq_some'.mp hp with ⟨s, hs, hmk⟩
  rw [← hmk]
  exact hs

end GameStore

/-- C1: for every game in the store and every limit, `getLeaderboard(gameId,
limit)` (limit defaults to 10) consists of `{player, bestScore}` pairs: its
length is at most `limit`; every returned entry pairs a known player having at
least one score in the game with that player's best score; the result is
sorted ascending by value for time-based games and descending otherwise; it is
the `limit`-truncation of the full sorted leaderboard, whose players are
exactly the known players with at least one score in the game. -/
theorem C1_getLeaderboard_spec (st : StoreState) (gameId : String) (limit : Nat)
    (game : Game)
    (hg : st.games.find? (fun g => g.id == gameId) = some game) :
    (GameStore.getLeaderboard st gameId limit).length ≤ limit ∧
    (∀ e ∈ GameStore.getLeaderboard st gameId limit,
      GameStore.getBestScore st gameId e.player.id = some e.bestScore ∧
      e.player ∈ st.players ∧
      ∃ sc ∈ game.scores, sc.playerId = e.player.id) ∧
    (GameStore.getLeaderboard st gameId limit).Pairwise
      (fun a b => if game.isTimeBased then a.bestScore.value ≤ b.bestScore.value
                  else b.bestScore.value ≤ a.bestScore.value) ∧
    GameStore.getLeaderboard st gameId limit
      = (List.insertionSort (GameStore.lbLE game.isTimeBased)
          (st.players.filterMap (fun p => (GameStore.getBestScore st gameId p.id).map
            (fun s => { player := p, bestScore := s })))).take limit ∧
    List.Perm
      ((List.insertionSort (GameStore.lbLE game.isTimeBased)
        (st.players.filterMap (fun p => (GameStore.getBestScore st gameId p.id).map
          (fun s => { player := p, bestScore := s })))).map
        GameStore.LeaderboardEntry.player)
      (st.players.filter (fun p => game.scores.any (fun sc => sc.playerId == p.id))) := by
  have hdef : GameStore.getLeaderboard st gameId limit
      = (List.insertionSort (GameStore.lbLE game.isTimeBased)
          (st.players.filterMap (fun p => (GameStore.getBestScore st gameId p.id).map
            (fun s => { player := p, bestScore := s })))).take limit := by
    unfold GameStore.getLeaderboard
    rw [hg]
  refine ⟨?_, ?_, ?_, hdef, ?_⟩
  · rw [hdef]
    exact List.length_take_le _ _
  · intro e he
    rw [hdef] at he
    have he2 := List.mem_of_mem_take he
    have he3 : e ∈ st.players.filterMap (fun p => (GameStore.getBestScore st gameId p.id).map
        (fun s => { player := p, bestScore := s : GameStore.LeaderboardEntry })) :=
      (List.perm_insertionSort _ _).mem_iff.mp he2
    have hbest := GameStore.leaderboard_entry_best st gameId st.players e he3
    have hmemp : e.player ∈ st.players := by
      rcases List.mem_filterMap.mp he3 with ⟨p, hpmem, hp⟩
      rcases Option.map_eq_some'.mp hp with ⟨s, _, hmk⟩
      rw [← hmk]
      exact hpmem
    have hsc := (GameStore.getBestScore_mem st gameId e.player.id game e.bestScore hg hbest)
    exact ⟨hbest, hmemp, e.bestScore, hsc.1, hsc.2⟩
  · rw [hdef]
    have hsorted : (List.insertionSort (GameStore.lbLE game.isTimeBased)
        (st.players.filterMap (fun p => (GameStore.getBestScore st gameId p.id).map
          (fun s => { player := p, bestScore := s })))).Pairwise
        (GameStore.lbLE game.isTimeBased) :=
      List.sorted_insertionSort _ _
    exact (hsorted.sublist (List.take_sublist _ _)).imp
      (fun h => GameStore.lbLE_imp_ite game.isTimeBased h)
  · have hmap := GameStore.leaderboard_map_player st gameId st.players
    have hperm : List.Perm
        ((List.insertionSort (GameStore.lbLE game.isTimeBased)
          (st.players.filterMap (fun p => (GameStore.getBestScore st gameId p.id).map
            (fun s => { player := p, bestScore := s })))).map
          GameStore.LeaderboardEntry.player)
        ((st.players.filterMap (fun p => (GameStore.getBestScore st gameId p.id).map
            (fun s => { player := p, bestScore := s }))).map
          GameStore.LeaderboardEntry.player) :=
      (List.perm_insertionSort _ _).map _
    rw [hmap] at hperm
    have hfilter : st.players.filter (fun p => (GameStore.getBestScore st gameId p.id).isSome)
        = st.players.filter (fun p => game.scores.any (fun sc => sc.playerId == p.id)) := by
      apply List.filter_congr
      intro p _
      have hiff := GameStore.getBestScore_isSome_iff st gameId p.id game hg
      have hany : (game.scores.any (fun sc => sc.playerId == p.id) = true) ↔
          ∃ sc ∈ game.scores, sc.playerId = p.id := by
        simp [List.any_eq_true]
      rcases h1 : (GameStore.getBestScore st gameId p.id).isSome with _ | _ <;>
        rcases h2 : game.scores.any (fun sc => sc.playerId == p.id) with _ | _ <;>
        first
          | rfl
          | (exfalso
             rw [h1] at hiff
             rw [h2] at hany
             simp at hiff hany
             first
               | exact hany.elim (fun sc hsc => (hiff sc hsc.1 hsc.2))
               | rcases hiff with ⟨sc, hsc1, hsc2⟩
                 exact hany sc hsc1 hsc2)
    rw [hfilter] at hperm
    exact hperm

/-- Witness for C1 at a concrete input: three known players, two with scores,
limit 1 forcing truncation. -/
theorem C1_witness :
    exStore.games.find? (fun g => g.id == "g1") = some exGame ∧
    ((GameStore.getLeaderboard exStore "g1" 1).length ≤ 1 ∧
    (∀ e ∈ GameStore.getLeaderboard exStore "g1" 1,
      GameStore.getBestScore exStore "g1" e.player.id = some e.bestScore ∧
      e.player ∈ exStore.players ∧
      ∃ sc ∈ exGame.scores, sc.playerId = e.player.id) ∧
    (GameStore.getLeaderboard exStore "g1" 1).Pairwise
      (fun a b => if exGame.isTimeBased then a.bestScore.value ≤ b.bestScore.value
                  else b.bestScore.value ≤ a.bestScore.value) ∧
    GameStore.getLeaderboard exStore "g1" 1
      = (List.insertionSort (GameStore.lbLE exGame.isTimeBased)
          (exStore.players.filterMap (fun p => (GameStore.getBestScore exStore "g1" p.id).map
            (fun s => { player := p, bestScore := s })))).take 1 ∧
    List.Perm
      ((List.insertionSort (GameStore.lbLE exGame.isTimeBased)
        (exStore.players.filterMap (fun p => (GameStore.getBestScore exStore "g1" p.id).map
          (fun s => { player := p, bestScore := s })))).map
        GameStore.LeaderboardEntry.player)
      (exStore.players.filter (fun p => exGame.scores.any (fun sc => sc.playerId == p.id)))) :=
  ⟨by decide, C1_getLeaderboard_spec exStore "g1" 1 exGame (by decide)⟩

namespace StorageService

theorem find?_upsert (storage : LocalStorage) (key : String) (gf : GameFile) :
    (upsert storage key gf).find? (fun kv => kv.1 == key) = some (key, gf) := by
  induction storage with
  | nil => simp [upsert]
  | cons kv rest ih =>
    cases h : (kv.1 == key) <;> simp [upsert, h, List.find?_cons, ih]

theorem newDateOfDate_id (d : JSDate) : newDateOfDate d = d := by
  cases d <;> rfl

/-- On a game whose timestamp fields are present and valid, deserialization is
the identity. -/
theorem deserializeGame_valid (g : Game)
    (h1 : ∃ t, g.createdAt = some (some t)) (h2 : ∃ t, g.updatedAt = some (some t)) :
    deserializeGame g = g := by
  rcases h1 with ⟨t1, e1⟩
  rcases h2 with ⟨t2, e2⟩
  unfold deserializeGame
  rw [e1, e2]
  have hmap : g.scores.map (fun s => { s with achievedAt := newDateOfDate s.achievedAt })
      = g.scores := by
    have hpt : ∀ s : Score, { s with achievedAt := newDateOfDate s.achievedAt } = s := by
      intro s; rw [newDateOfDate_id]
    simp [hpt]
  rw [hmap]
  simp only [newDateOfField]
  rw [← e1, ← e2]

end StorageService

/-- C4: for every valid Game `g` (timestamp fields present and valid, every
score's `achievedAt` valid — the region where the JSON round trip through
localStorage is faithful), `saveGame(g)` followed by `loadGame(g.id)` succeeds
and returns a Game deep-equal to `g`, nested scores and timestamps included. -/
theorem C4_save_load_roundtrip (storage : LocalStorage) (g : Game)
    (h1 : ∃ t, g.createdAt = some (some t)) (h2 : ∃ t, g.updatedAt = some (some t))
    (h3 : ∀ sc ∈ g.scores, ∃ t, sc.achievedAt = some t) :
    StorageService.loadGame (StorageService.saveGame storage g).1 g.id
      = ApiResponse.success g := by
  unfold StorageService.loadGame StorageService.saveGame
  simp only
  rw [StorageService.find?_upsert]
  exact congrArg ApiResponse.success (StorageService.deserializeGame_valid g h1 h2)

/-- Witness for C4 at a concrete input (a non-empty prior storage, the valid
game `exGame`). -/
theorem C4_witness :
    (∃ t, exGame.createdAt = some (some t)) ∧
    (∃ t, exGame.updatedAt = some (some t)) ∧
    (∀ sc ∈ exGame.scores, ∃ t, sc.achievedAt = some t) ∧
    StorageService.loadGame
      (StorageService.saveGame [("gOld", { game := exGameDistinct, version := "1.0" })]
        exGame).1 "g1"
      = ApiResponse.success exGame := by
  have h3 : ∀ sc ∈ exGame.scores, ∃ t, sc.achievedAt = some t := by
    intro sc hsc
    simp [exGame] at hsc
    rcases hsc with h | h | h | h <;> subst h <;> exact ⟨_, rfl⟩
  refine ⟨⟨1, rfl⟩, ⟨2, rfl⟩, h3, ?_⟩
  have := C4_save_load_roundtrip
    [("gOld", { game := exGameDistinct, version := "1.0" })] exGame
    ⟨1, rfl⟩ ⟨2, rfl⟩ h3
  exact this

/-- C5: `addScore` on a `gameId` absent from the games collection returns
`false` and leaves `games` unchanged in length and contents, for any store
state and any persistence outcome. -/
theorem C5_addScore_missing_game (st : StoreState) (gameId playerId playerName : String)
    (value : ℚ) (notes : Option String) (newId : String) (now : Nat) (saveOk : Bool)
    (h : st.games.find? (fun g => g.id == gameId) = none) :
    (GameStore.addScore st gameId playerId playerName value notes newId now saveOk).1
        = false ∧
    (GameStore.addScore st gameId playerId playerName value notes newId now saveOk).2.games
        = st.games := by
  unfold GameStore.addScore
  rw [h]
  exact ⟨rfl, rfl⟩

/-- Witness for C5 at a concrete input (an ID not in the store). -/
theorem C5_witness :
    exStore.games.find? (fun g => g.id == "ghost") = none ∧
    (GameStore.addScore exStore "ghost" "p1" "Alice" 7 none "s9" 99 true).1 = false ∧
    (GameStore.addScore exStore "ghost" "p1" "Alice" 7 none "s9" 99 true).2.games
      = exStore.games :=
  ⟨by decide, C5_addScore_missing_game exStore "ghost" "p1" "Alice" 7 none "s9" 99 true
    (by decide)⟩

/-- C6 counterexample: `exStore` already holds a game named "Racing", yet
`GameStore.createGame` with name "racing" succeeds (returns the new ID) and
appends a second game — the store performs no duplicate-name check. -/
theorem C6_counterexample :
    (∃ g ∈ exStore.games, jsToLower g.name = jsToLower (jsTrim "racing")) ∧
    (GameStore.createGame exStore "racing" "laps again" false "gNew" true).1 = some "gNew" ∧
    (GameStore.createGame exStore "racing" "laps again" false "gNew" true).2.games.length
      = exStore.games.length + 1 := by
  decide

/-- C6 (amended): the case-insensitive duplicate-name rejection happens in the
form layer, not the store. Whenever some existing game's name case-folds to
the trimmed requested name, `AddGameForm.validateForm` reports
"A game with this name already exists" (so the form never calls
`createGame`), while `GameStore.createGame` itself performs no duplicate
check: on persistence success it appends the game and returns its ID. -/
theorem C6_duplicate_name_rejected_by_form (st : StoreState) (name description : String)
    (isTimeBased : Bool) (newId : String)
    (hdup : ∃ g ∈ st.games, jsToLower g.name = jsToLower (jsTrim name)) :
    AddGameForm.nameError st.games name = some "A game with this name already exists" ∧
    (GameStore.createGame st name description isTimeBased newId true).1 = some newId ∧
    (GameStore.createGame st name description isTimeBased newId true).2.games
      = st.games ++ [GameStore.newGameOf name description isTimeBased newId] := by
  refine ⟨?_, rfl, rfl⟩
  unfold AddGameForm.nameError
  have hany : st.games.any (fun g => jsToLower g.name == jsToLower (jsTrim name)) = true := by
    rcases hdup with ⟨g, hm, he⟩
    simp only [List.any_eq_true, beq_iff_eq]
    exact ⟨g, hm, he⟩
  simp [hany]

/-- Witness for the amended C6 at a concrete input. -/
theorem C6_witness :
    (∃ g ∈ exStore.games, jsToLower g.name = jsToLower (jsTrim "racing")) ∧
    (AddGameForm.nameError exStore.games "racing"
        = some "A game with this name already exists" ∧
      (GameStore.createGame exStore "racing" "laps again" false "gNew" true).1
        = some "gNew" ∧
      (GameStore.createGame exStore "racing" "laps again" false "gNew" true).2.games
        = exStore.games ++ [GameStore.newGameOf "racing" "laps again" false "gNew"]) :=
  ⟨by decide,
    C6_duplicate_name_rejected_by_form exStore "racing" "laps again" false "gNew"
      (by decide)⟩

/-- C7 counterexample: `GameStore.addScore` with a negative value on an
existing game succeeds and appends a score whose value is negative — the
store performs no value check. -/
theorem C7_counterexample :
    (GameStore.addScore exStore "g1" "p1" "Alice" (-5) none "s9" 99 true).1 = true ∧
    ∃ g ∈ (GameStore.addScore exStore "g1" "p1" "Alice" (-5) none "s9" 99 true).2.games,
      ∃ sc ∈ g.scores, sc.value < 0 := by
  decide

/-- C7 (amended): the negative-value rejection happens in the form layer, not
the store: `AddScoreForm.validateForm` reports "Score cannot be negative" for
any parsed value `< 0` (so the form never calls `addScore` with it), while
`GameStore.addScore` itself performs no value check and succeeds on an
existing game. -/
theorem C7_negative_rejected_by_form (n : ℚ) (hn : n < 0) (st : StoreState)
    (gameId playerId playerName : String) (notes : Option String) (newId : String)
    (now : Nat) (game : Game)
    (hg : st.games.find? (fun g => g.id == gameId) = some game) :
    AddScoreForm.scoreValueError false (some n) = some "Score cannot be negative" ∧
    (GameStore.addScore st gameId playerId playerName n notes newId now true).1 = true := by
  constructor
  · unfold AddScoreForm.scoreValueError
    simp [hn]
  · unfold GameStore.addScore
    rw [hg]
    rfl

/-- Witness for the amended C7 at a concrete input. -/
theorem C7_witness :
    ((-5 : ℚ) < 0) ∧
    exStore.games.find? (fun g => g.id == "g1") = some exGame ∧
    (AddScoreForm.scoreValueError false (some (-5))
        = some "Score cannot be negative" ∧
      (GameStore.addScore exStore "g1" "p1" "Alice" (-5) none "s9" 99 true).1 = true) :=
  ⟨by norm_num, by decide,
    C7_negative_rejected_by_form (-5) (by norm_num) exStore "g1" "p1" "Alice" none "s9" 99
      exGame (by decide)⟩

namespace GameStore

theorem findIdx?_of_find?_aux {α : Type} (p : α → Bool) (l : List α) (a : α) (i : Nat)
    (h : l.find? p = some a) :
    ∃ k, l.findIdx? p i = some (i + k) ∧ l.get? k = some a := by
  induction l generalizing i with
  | nil => simp at h
  | cons b rest ih =>
    cases hp : p b
    · rw [List.find?_cons, hp] at h
      rcases ih (i + 1) h with ⟨k, h1, h2⟩
      refine ⟨k + 1, ?_, by simpa using h2⟩
      rw [List.findIdx?_cons, hp]
      simp only [Bool.false_eq_true, if_false]
      rw [h1]
      congr 1
      omega
    · rw [List.find?_cons, hp] at h
      injection h with hba
      refine ⟨0, ?_, by simpa using hba⟩
      rw [List.findIdx?_cons, hp]
      simp

/-- From a successful `find?`, extract the index that `findIdx?` (as used in
`addScore`'s `runInAction`) locates, together with the element there. -/
theorem findIdx?_of_find? {α : Type} (p : α → Bool) (l : List α) (a : α)
    (h : l.find? p = some a) :
    ∃ k, l.findIdx? p = some k ∧ l.get? k = some a := by
  rcases findIdx?_of_find?_aux p l a 0 h with ⟨k, h1, h2⟩
  exact ⟨k, by simpa using h1, h2⟩

end GameStore

/-- C8: when `addScore` finds the game, on persistence success it replaces the
game (at its index) with a copy whose score list is the old list with exactly
the one new score appended (its `isTime` copied from the game, the submitted
fields and `achievedAt = now` filled in), and on persistence failure the games
collection is unchanged. Contrary to the claim, the game's `updatedAt` is NOT
refreshed: the spread copy carries the old `updatedAt` along unchanged (the
code never touches timestamp fields). -/
theorem C8_addScore_success_append (st : StoreState) (gameId playerId playerName : String)
    (value : ℚ) (notes : Option String) (newId : String) (now : Nat) (game : Game)
    (hg : st.games.find? (fun g => g.id == gameId) = some game) :
    (∃ i, st.games.findIdx? (fun g => g.id == gameId) = some i ∧
      st.games.get? i = some game ∧
      (GameStore.addScore st gameId playerId playerName value notes newId now true).2.games
        = st.games.set i { game with scores := game.scores ++
            [GameStore.mkNewScore newId playerId playerName value game.isTimeBased now notes] }) ∧
    (GameStore.addScore st gameId playerId playerName value notes newId now true).1 = true ∧
    ({ game with scores := game.scores ++
        [GameStore.mkNewScore newId playerId playerName value game.isTimeBased now notes]
      } : Game).updatedAt = game.updatedAt ∧
    (GameStore.addScore st gameId playerId playerName value notes newId now false).1
        = false ∧
    (GameStore.addScore st gameId playerId playerName value notes newId now false).2.games
        = st.games := by
  rcases GameStore.findIdx?_of_find? (fun g => g.id == gameId) st.games game hg
    with ⟨i, hidx, hget⟩
  refine ⟨⟨i, hidx, hget, ?_⟩, ?_, rfl, ?_, ?_⟩
  · unfold GameStore.addScore
    rw [hg]
    simp only
    rw [hidx]
    rfl
  · unfold GameStore.addScore
    rw [hg]
    rfl
  · unfold GameStore.addScore
    rw [hg]
    rfl
  · unfold GameStore.addScore
    rw [hg]
    rfl

/-- Witness for C8 at a concrete input. -/
theorem C8_witness :
    exStore.games.find? (fun g => g.id == "g1") = some exGame ∧
    ((∃ i, exStore.games.findIdx? (fun g => g.id == "g1") = some i ∧
      exStore.games.get? i = some exGame ∧
      (GameStore.addScore exStore "g1" "p2" "Bob" 44 none "s9" 99 true).2.games
        = exStore.games.set i { exGame with scores := exGame.scores ++
            [GameStore.mkNewScore "s9" "p2" "Bob" 44 exGame.isTimeBased 99 none] }) ∧
    (GameStore.addScore exStore "g1" "p2" "Bob" 44 none "s9" 99 true).1 = true ∧
    ({ exGame with scores := exGame.scores ++
        [GameStore.mkNewScore "s9" "p2" "Bob" 44 exGame.isTimeBased 99 none]
      } : Game).updatedAt = exGame.updatedAt ∧
    (GameStore.addScore exStore "g1" "p2" "Bob" 44 none "s9" 99 false).1 = false ∧
    (GameStore.addScore exStore "g1" "p2" "Bob" 44 none "s9" 99 false).2.games
        = exStore.games) :=
  ⟨by decide,
    C8_addScore_success_append exStore "g1" "p2" "Bob" 44 none "s9" 99 exGame (by decide)⟩

/-- C9: on persistence success `createGame` returns the new ID and appends a
game with that ID and an empty scores list; on persistence failure it returns
`null` and the collection is unchanged. Contrary to the claim, the created
game has NO `createdAt`/`updatedAt` fields at all (the object literal in
`createGame` never sets them, although `GameList` renders them and
`listGames`/`deserializeGame` read them). -/
theorem C9_createGame_behaviour (st : StoreState) (name description : String)
    (isTimeBased : Bool) (newId : String) :
    (GameStore.createGame st name description isTimeBased newId true).1 = some newId ∧
    (GameStore.createGame st name description isTimeBased newId true).2.games
      = st.games ++ [GameStore.newGameOf name description isTimeBased newId] ∧
    (GameStore.newGameOf name description isTimeBased newId).id = newId ∧
    (GameStore.newGameOf name description isTimeBased newId).scores = [] ∧
    (GameStore.newGameOf name description isTimeBased newId).createdAt = none ∧
    (GameStore.newGameOf name description isTimeBased newId).updatedAt = none ∧
    (GameStore.createGame st name description isTimeBased newId false).1 = none ∧
    (GameStore.createGame st name description isTimeBased newId false).2.games
      = st.games :=
  ⟨rfl, rfl, rfl, rfl, rfl, rfl, rfl, rfl⟩

namespace StorageService

theorem mem_upsert {storage : LocalStorage} {key : String} {gf : GameFile}
    {kv : String × GameFile} (h : kv ∈ upsert storage key gf) :
    kv ∈ storage ∨ kv = (key, gf) := by
  induction storage with
  | nil =>
    simp [upsert] at h
    right; exact h
  | cons kv0 rest ih =>
    unfold upsert at h
    by_cases hk : (kv0.1 == key) = true
    · rw [if_pos hk] at h
      rcases List.mem_cons.mp h with h1 | h1
      · right; exact h1
      · left; exact List.mem_cons_of_mem _ h1
    · rw [if_neg hk] at h
      rcases List.mem_cons.mp h with h1 | h1
      · left; rw [h1]; exact List.mem_cons_self _ _
      · rcases ih h1 with h2 | h2
        · left; exact List.mem_cons_of_mem _ h2
        · right; exact h2

theorem loadGame_success_mem {storage : LocalStorage} {gid : String} {g : Game}
    (h : loadGame storage gid = ApiResponse.success g) :
    ∃ kv, kv ∈ storage ∧ g = deserializeGame kv.2.game := by
  unfold loadGame at h
  rcases hf : storage.find? (fun kv => kv.1 == gid) with _ | kv
  · rw [hf] at h
    exact absurd h (by simp)
  · rw [hf] at h
    injection h with h2
    exact ⟨kv, List.mem_of_find?_eq_some hf, h2.symm⟩

/-- Deserialization does not touch `isTime`/`isTimeBased`, so it preserves
the score-consistency invariant. -/
theorem deserializeGame_consistent {g : Game}
    (h : ∀ sc ∈ g.scores, sc.isTime = g.isTimeBased) :
    ∀ sc ∈ (deserializeGame g).scores,
      sc.isTime = (deserializeGame g).isTimeBased := by
  intro sc hsc
  rcases List.mem_map.mp hsc with ⟨s, hs, hmk⟩
  rw [← hmk]
  exact h s hs

end StorageService

/-- Every reachable system state satisfies the strengthened invariant: both
the in-memory games and every stored game document are score-consistent. -/
theorem reach_consistent {s : Sys} (h : Reach s) : Sys.Consistent s := by
  induction h with
  | init p1Id p2Id gameId s1Id s2Id now =>
    constructor
    · intro g hg sc hsc
      simp [GameStore.initialStore] at hg
      subst hg
      simp at hsc
      rcases hsc with h1 | h1 <;> subst h1 <;> rfl
    · intro g hg
      simp at hg
  | createGame h name description isTimeBased newId saveOk ih =>
    cases saveOk
    · exact ⟨ih.1, ih.2⟩
    · constructor
      · intro g hg sc hsc
        rcases List.mem_append.mp hg with h1 | h1
        · exact ih.1 g h1 sc hsc
        · simp at h1
          subst h1
          simp [GameStore.newGameOf] at hsc
      · intro g hg
        rcases List.mem_map.mp hg with ⟨kv, hkv, hkvg⟩
        rcases StorageService.mem_upsert hkv with h1 | h1
        · exact hkvg ▸ ih.2 kv.2.game (List.mem_map.mpr ⟨kv, h1, rfl⟩)
        · rw [← hkvg, h1]
          intro sc hsc
          simp [GameStore.newGameOf] at hsc
  | @addScore s h gameId playerId playerName value notes newId now saveOk ih =>
    unfold sysAddScore
    rcases hf : s.store.games.find? (fun g => g.id == gameId) with _ | game <;> rw [hf]
    · refine ⟨?_, ih.2⟩
      have hgames : (GameStore.addScore s.store gameId playerId playerName value notes
          newId now saveOk).2.games = s.store.games := by
        unfold GameStore.addScore; rw [hf]
      show gamesConsistent _
      rw [hgames]
      exact ih.1
    · have hgame_mem : game ∈ s.store.games := List.mem_of_find?_eq_some hf
      have hgame_cons : ∀ sc ∈ game.scores, sc.isTime = game.isTimeBased :=
        ih.1 game hgame_mem
      have hupd : ∀ sc ∈ (game.scores ++
          [GameStore.mkNewScore newId playerId playerName value game.isTimeBased now notes]),
          sc.isTime = game.isTimeBased := by
        intro sc hsc
        rcases List.mem_append.mp hsc with h1 | h1
        · exact hgame_cons sc h1
        · simp at h1; subst h1; rfl
      cases saveOk
      · refine ⟨?_, ih.2⟩
        have hgames : (GameStore.addScore s.store gameId playerId playerName value notes
            newId now false).2.games = s.store.games := by
          unfold GameStore.addScore; rw [hf]; rfl
        show gamesConsistent _
        rw [hgames]
        exact ih.1
      · constructor
        · intro g' hg' sc hsc
          unfold GameStore.addScore at hg'
          rw [hf] at hg'
          simp only at hg'
          rcases hidx : s.store.games.findIdx? (fun g => g.id == gameId) with _ | i <;>
            rw [hidx] at hg'
          · exact ih.1 g' hg' sc hsc
          · rcases List.mem_or_eq_of_mem_set hg' with h1 | h1
            · exact ih.1 g' h1 sc hsc
            · subst h1
              exact hupd sc hsc
        · intro g' hg'
          rcases List.mem_map.mp hg' with ⟨kv, hkv, hkvg⟩
          rcases StorageService.mem_upsert hkv with h1 | h1
          · exact hkvg ▸ ih.2 kv.2.game (List.mem_map.mpr ⟨kv, h1, rfl⟩)
          · rw [← hkvg, h1]
            exact hupd
  | @deleteGame s h gameId ih =>
    unfold sysDeleteGame StorageService.deleteGame
    by_cases hany : (s.storage.any (fun kv => kv.1 == gameId)) = true
    · rw [if_pos hany]
      refine ⟨?_, ?_⟩
      · intro g hg sc hsc
        exact ih.1 g (List.mem_filter.mp hg).1 sc hsc
      · intro g hg
        rcases List.mem_map.mp hg with ⟨kv, hkv, hkvg⟩
        exact hkvg ▸ ih.2 kv.2.game
          (List.mem_map.mpr ⟨kv, (List.mem_filter.mp hkv).1, rfl⟩)
    · rw [if_neg hany]
      exact ⟨ih.1, ih.2⟩
  | @loadGames s h ih =>
    refine ⟨?_, ih.2⟩
    intro g hg sc hsc
    unfold sysLoadGames GameStore.loadGames StorageService.listGames at hg
    simp only at hg
    rcases List.mem_filterMap.mp hg with ⟨summary, hsum, hload⟩
    rcases hload2 : StorageService.loadGame s.storage summary.id with g2 | e
    · rw [hload2] at hload
      injection hload with h3
      subst h3
      rcases StorageService.loadGame_success_mem hload2 with ⟨kv, hkv, hdes⟩
      subst hdes
      exact StorageService.deserializeGame_consistent
        (ih.2 kv.2.game (List.mem_map.mpr ⟨kv, hkv, rfl⟩)) sc hsc
    · rw [hload2] at hload
      simp at hload

/-- C10: in every system state reachable by the store's operations
(`createGame`, `addScore`, `deleteGame`, `loadGames`) from a fresh start,
every Score in a Game's scores list has `isTime` equal to that Game's
`isTimeBased`. -/
theorem C10_isTime_invariant {s : Sys} (h : Reach s) :
    ∀ g ∈ s.store.games, ∀ sc ∈ g.scores, sc.isTime = g.isTimeBased :=
  (reach_consistent h).1

/-- Witness for C10 at a concrete reachable state (the initial state after a
score has been added to the sample game). -/
theorem C10_witness :
    Reach (sysAddScore ⟨GameStore.initialStore "p1" "p2" "g0" "sc1" "sc2" 5, []⟩
      "g0" "p2" "Bob" 97 none "sc3" 6 true) ∧
    ∀ g ∈ (sysAddScore ⟨GameStore.initialStore "p1" "p2" "g0" "sc1" "sc2" 5, []⟩
          "g0" "p2" "Bob" 97 none "sc3" 6 true).store.games,
      ∀ sc ∈ g.scores, sc.isTime = g.isTimeBased :=
  ⟨Reach.addScore (Reach.init "p1" "p2" "g0" "sc1" "sc2" 5) "g0" "p2" "Bob" 97 none
      "sc3" 6 true,
    C10_isTime_invariant (Reach.addScore (Reach.init "p1" "p2" "g0" "sc1" "sc2" 5)
      "g0" "p2" "Bob" 97 none "sc3" 6 true)⟩
